import Mathlib

/-!
Verification development for the DAGFrameScheduler library.

The repository ships two headers under src: dagframescheduler.h, the umbrella
documentation header, and lockguard.h, the RAII mutex guard. The scheduler
implementation proper (framescheduler.h, workunit.h, workunitkey.h,
doublebufferedresource.h) is declared and documented by the umbrella header and
by spec.md but its code is not present, so those components are modelled from
the specification text, as flagged on each definition. The work-unit state
machine and the per-frame dispatch are embedded as a small-step interleaving
transition system over explicit frame states; an execution trace timestamps
every event with a global logical clock, so the happens-before order of the
model is the order of those timestamps.
-/

namespace DAGFS

/-- Work units are identified by handle; equality is by handle (spec section 3). -/
abbrev Handle := Nat

/-- An opaque identifier for an OS worker thread in the model. -/
abbrev ThreadId := Nat

/-- Modelled from the spec: the per-frame work-unit state machine of
workunit.h, which is not under src. States per spec section 4.1:
Starting, Running, Complete, Failed. The value a unit is reset to at frame
start, called the Complete-sentinel or the ready-for-this-frame value in spec
sections 3 and 4.4, is modelled by the distinct constructor Ready so that a
finished unit is distinguishable from a not-yet-run one, as the exactly-once
and drain-termination clauses of the spec require. -/
inductive UnitState
  | Ready
  | Starting
  | Running
  | Complete
  | Failed
deriving DecidableEq

/-- Modelled from the spec: the per-unit runtime record of workunit.h, which is
not under src. Besides the state word and the 64-bit performance sample (spec
section 3) the model carries instrumentation needed to state the claims: the
thread that won the acquisition, how often the body was invoked this frame,
logical start and finish timestamps, and the timestamps of the memory events
the body performed while running. -/
structure UnitRT where
  state : UnitState
  perf : Nat
  owner : Option ThreadId
  invocations : Nat
  startTime : Option Nat
  finishTime : Option Nat
  bodyEvents : List Nat
deriving DecidableEq

/-- Modelled from the spec: the in-frame view of the FrameScheduler state
(framescheduler.h is not under src): the work-unit registry, the forward
dependency lists (edges point from a unit to its immediate predecessors, spec
section 4.2), the sorted dispatch sequence derived by the dependency cache, the
per-unit runtime records and a global logical clock that timestamps events. -/
structure FrameState where
  registry : List Handle
  deps : Handle → List Handle
  dispatch : List Handle
  units : Handle → UnitRT
  clock : Nat

/-- Modelled from the spec: frame start resets a unit to the ready sentinel
(spec section 4.4 step 1); the performance history survives across frames. -/
def resetUnit (r : UnitRT) : UnitRT :=
  { r with state := .Ready, owner := none, invocations := 0,
           startTime := none, finishTime := none, bodyEvents := [] }

/-- Modelled from the spec: frame start records a fresh timeline and resets
every unit to the ready sentinel (spec section 4.4 step 1). -/
def frameStart (fs : FrameState) : FrameState :=
  { fs with units := fun u => resetUnit (fs.units u), clock := 0 }

/-- Replace the record of a single unit and advance the logical clock by one. -/
def updateUnit (fs : FrameState) (u : Handle) (r : UnitRT) : FrameState :=
  { fs with units := Function.update fs.units u r, clock := fs.clock + 1 }

/-- Modelled from the spec: the successful atomic compare-and-swap of the state
word from the ready sentinel to Starting by thread t (spec section 4.1). -/
def doAcquire (fs : FrameState) (t : ThreadId) (u : Handle) : FrameState :=
  updateUnit fs u
    { fs.units u with
        state := UnitState.Starting
        owner := some t }

/-- Modelled from the spec: the winning caller moves the unit from Starting to
Running immediately before invoking the body (spec section 4.1); the start
timestamp is recorded and the invocation counter incremented. -/
def doRun (fs : FrameState) (u : Handle) : FrameState :=
  updateUnit fs u
    { fs.units u with
        state := UnitState.Running
        invocations := (fs.units u).invocations + 1
        startTime := some fs.clock }

/-- Modelled from the spec: one memory event (a write or read) performed by the
body of a running unit, timestamped by the logical clock. -/
def doWork (fs : FrameState) (u : Handle) : FrameState :=
  updateUnit fs u
    { fs.units u with
        bodyEvents := fs.clock :: (fs.units u).bodyEvents }

/-- Modelled from the spec: on normal return the unit publishes Complete, on a
body failure it moves to Failed (spec section 4.1); the finish timestamp is
recorded. -/
def doFinish (fs : FrameState) (u : Handle) (ok : Bool) : FrameState :=
  updateUnit fs u
    { fs.units u with
        state := if ok then UnitState.Complete else UnitState.Failed
        finishTime := some fs.clock }

/-- Modelled from the spec: the interleaving small-step semantics of the
parallel phase (spec sections 4.1 and 4.4). Each step is one atomic action of
one thread: winning the compare-and-swap on a registered unit whose
predecessors are all Complete, moving an owned unit to Running, performing a
body memory event, or finishing with success or failure. -/
inductive Step : FrameState → FrameState → Prop
  | acquire (fs : FrameState) (t : ThreadId) (u : Handle)
      (hreg : u ∈ fs.registry)
      (hst : (fs.units u).state = .Ready)
      (hdeps : ∀ p ∈ fs.deps u, (fs.units p).state = .Complete) :
      Step fs (doAcquire fs t u)
  | run (fs : FrameState) (t : ThreadId) (u : Handle)
      (hst : (fs.units u).state = .Starting)
      (hown : (fs.units u).owner = some t) :
      Step fs (doRun fs u)
  | work (fs : FrameState) (t : ThreadId) (u : Handle)
      (hst : (fs.units u).state = .Running)
      (hown : (fs.units u).owner = some t) :
      Step fs (doWork fs u)
  | finish (fs : FrameState) (t : ThreadId) (u : Handle) (ok : Bool)
      (hst : (fs.units u).state = .Running)
      (hown : (fs.units u).owner = some t) :
      Step fs (doFinish fs u ok)

/-- Reachability along the in-frame small-step semantics. -/
def Reach : FrameState → FrameState → Prop :=
  Relation.ReflTransGen Step

/-- A frame state in which no thread can take any further in-frame step. -/
def Terminal (fs : FrameState) : Prop :=
  ∀ fs2, ¬ Step fs fs2

/-- The transitive-predecessor relation of the forward dependency lists:
TransPred deps p u says p appears in the predecessor closure of u. -/
inductive TransPred (deps : Handle → List Handle) : Handle → Handle → Prop
  | base {p u : Handle} : p ∈ deps u → TransPred deps p u
  | tail {p q u : Handle} : TransPred deps p q → q ∈ deps u → TransPred deps p u

/-- Modelled from the spec: the readiness test of the acquisition scan (spec
section 4.1 step 2): the state word still holds the ready sentinel and every
immediate predecessor is Complete. -/
def readyUnit (fs : FrameState) (u : Handle) : Bool :=
  decide ((fs.units u).state = .Ready) &&
    (fs.deps u).all (fun p => decide ((fs.units p).state = .Complete))

/-- Modelled from the spec: one acquisition scan of a thread over the sorted
dispatch sequence (spec section 4.1 step 1): a single pass that returns the
first candidate that is ready, examining at most one entry per element. -/
def scanAcquire (fs : FrameState) (seq : List Handle) : Option Handle :=
  seq.find? (readyUnit fs)

/-- Modelled from the spec: the sort record of workunitkey.h, which is not
under src: the triple of dependent-count, 64-bit performance sample and handle
(spec section 3). -/
structure WorkUnitKey where
  dependents : Nat
  perf : Nat
  handle : Nat
deriving DecidableEq

/-- Modelled from the spec: the key ordering as a proposition (spec section 3):
lexicographic, descending on dependent-count first, then descending on the
performance sample, with the handle ascending as the final tiebreak, so
more-depended-on and longer-running units sort earlier. -/
def keyOrder (a b : WorkUnitKey) : Prop :=
  b.dependents < a.dependents ∨
    (a.dependents = b.dependents ∧
      (b.perf < a.perf ∨ (a.perf = b.perf ∧ a.handle ≤ b.handle)))

instance (a b : WorkUnitKey) : Decidable (keyOrder a b) := by
  unfold keyOrder; infer_instance

/-- Boolean form of the key ordering, used as the comparator of the sort. -/
def keyLE (a b : WorkUnitKey) : Bool :=
  decide (keyOrder a b)

/-- Modelled from the spec: the predecessor closure of a unit cut off at a
given depth; at depth at least the registry size it contains every transitive
predecessor reachable through registered chains. -/
def predsWithin (deps : Handle → List Handle) : Nat → Handle → List Handle
  | 0, _ => []
  | n + 1, v => (deps v).flatMap (fun p => p :: predsWithin deps n p)

/-- Modelled from the spec: the dependent-count of the dependency cache (spec
section 4.3 choice 1, the transitive count): the number of registered units in
whose predecessor closure the unit appears. -/
def dependentCount (fr : FrameState) (u : Handle) : Nat :=
  (fr.registry.filter (fun v => (predsWithin fr.deps fr.registry.length v).contains u)).length

/-- Modelled from the spec: the sort key derived for one unit on cache rebuild
(spec section 4.3 step 2). -/
def keyOf (fr : FrameState) (u : Handle) : WorkUnitKey :=
  { dependents := dependentCount fr u, perf := (fr.units u).perf, handle := u }

/-- Modelled from the spec: the client-facing scheduler object
(framescheduler.h is not under src): the frame state, the dirty flag of the
dependency cache, and whether a frame is currently in flight (spec sections 3
and 6). -/
structure Scheduler where
  frame : FrameState
  cacheDirty : Bool
  inFlight : Bool

/-- Modelled from the spec: add_work_unit registers a unit and marks the cache
dirty; it is legal only between frames, so it refuses while a frame is in
flight (spec sections 6 and 4.2). -/
def add_work_unit (s : Scheduler) (u : Handle) : Option Scheduler :=
  if s.inFlight then none
  else
    some
      { s with
          frame := { s.frame with registry := s.frame.registry ++ [u] }
          cacheDirty := true }

/-- Modelled from the spec: add_dependency appends the predecessor handle to
the dependency list of the dependent and marks the cache dirty; legal only
between frames (spec sections 6 and 4.2). -/
def add_dependency (s : Scheduler) (dependent pred : Handle) : Option Scheduler :=
  if s.inFlight then none
  else
    some
      { s with
          frame :=
            { s.frame with
                deps := Function.update s.frame.deps dependent
                  (s.frame.deps dependent ++ [pred]) }
          cacheDirty := true }

/-- Modelled from the spec: remove_work_unit removes the unit from the registry
and filters it out of the dependency list of every remaining unit, marking the
cache dirty; legal only between frames (spec sections 6 and 4.2). -/
def remove_work_unit (s : Scheduler) (u : Handle) : Option Scheduler :=
  if s.inFlight then none
  else
    some
      { s with
          frame :=
            { s.frame with
                registry := s.frame.registry.filter (fun v => v ≠ u)
                deps := fun v => (s.frame.deps v).filter (fun p => p ≠ u) }
          cacheDirty := true }

/-- Modelled from the spec: update_dependency_cache rebuilds the derived
structures (spec sections 4.3 and 6): it recomputes every sort key and sorts
the registry into the dispatch sequence by the key order, clearing the dirty
flag. -/
def update_dependency_cache (s : Scheduler) : Scheduler :=
  { s with
      frame :=
        { s.frame with
            dispatch :=
              s.frame.registry.mergeSort (fun a b => keyLE (keyOf s.frame a) (keyOf s.frame b)) }
      cacheDirty := false }

/-- Modelled from the spec: the sleep request of the end-of-frame pacing (spec
section 4.4 step 6): max (0, target - elapsed + carry), in signed microseconds. -/
def sleepRequest (target elapsed carry : Int) : Int :=
  max 0 (target - elapsed + carry)

/-- Modelled from the spec: clamping of the pause carry to the configured
bound (spec section 4.4 step 6). -/
def clampCarry (bound x : Int) : Int :=
  max (-bound) (min bound x)

/-- Modelled from the spec: the carry set after the sleep (spec section 4.4
step 6): (target - elapsed) - actually_slept, clamped to the configured bound. -/
def nextCarry (bound target elapsed slept : Int) : Int :=
  clampCarry bound (target - elapsed - slept)

/-- Modelled from the spec: the whole end-of-frame pacing step of do_one_frame
(spec section 4.4 step 6): the pair of the amount the scheduler sleeps for and
the carry it stores for the next frame, given the elapsed work time and the
amount actually slept. -/
def frameEndPacing (bound target elapsed carry slept : Int) : Int × Int :=
  (sleepRequest target elapsed carry, nextCarry bound target elapsed slept)

/-- Modelled from the spec: the double-buffered resource of
doublebufferedresource.h, which is not under src: two storage slots plus a
one-bit parity (spec sections 3 and 4.5). -/
structure DoubleBuffered (α : Type) where
  slotA : α
  slotB : α
  parity : Bool

/-- Modelled from the spec: the current slot, writable by the owning thread
(spec section 4.5). -/
def current {α : Type} (d : DoubleBuffered α) : α :=
  if d.parity then d.slotB else d.slotA

/-- Modelled from the spec: the previous slot, read-only to any reader for the
duration of the frame (spec section 4.5). -/
def previous {α : Type} (d : DoubleBuffered α) : α :=
  if d.parity then d.slotA else d.slotB

/-- Modelled from the spec: a write by the owning thread into its current slot
(spec section 4.5). -/
def writeCurrent {α : Type} (d : DoubleBuffered α) (x : α) : DoubleBuffered α :=
  if d.parity then { d with slotB := x } else { d with slotA := x }

/-- Modelled from the spec: the parity flip the scheduler invokes exactly once
per frame at frame start (spec sections 4.4 step 1 and 4.5). -/
def flip {α : Type} (d : DoubleBuffered α) : DoubleBuffered α :=
  { d with parity := !d.parity }

/-- A mutex operation observable in the trace of a lock_guard, identifying the
mutex by an id standing for its address. -/
inductive MutexOp
  | lock (m : Nat)
  | unlock (m : Nat)
deriving DecidableEq

/-- The lock_guard of src/src/lockguard.h: its only data member is mMutex, a
non-owning, nullable pointer to the guarded mutex, modelled as an optional
mutex id. -/
structure lock_guard where
  mMutex : Option Nat

/-- The lock_guard constructor of src/src/lockguard.h lines 99 to 103: it
stores the address of the mutex reference in mMutex and calls lock through
that pointer. A C++ reference always designates an object, so the stored
pointer is some id. The result is the constructed guard paired with the list
of mutex operations the constructor performs. -/
def lockGuardConstruct (aMutex : Nat) : lock_guard × List MutexOp :=
  ({ mMutex := some aMutex }, [MutexOp.lock aMutex])

/-- The lock_guard destructor of src/src/lockguard.h lines 106 to 110: if
mMutex is non-null it calls unlock through it, otherwise it performs nothing.
The result is the list of mutex operations the destructor performs. -/
def lockGuardDestruct (g : lock_guard) : List MutexOp :=
  match g.mMutex with
  | some m => [MutexOp.unlock m]
  | none => []

/-- A freshly registered unit record used by the concrete examples. -/
def exRT : UnitRT :=
  { state := UnitState.Ready, perf := 0, owner := none, invocations := 0,
    startTime := none, finishTime := none, bodyEvents := [] }

/-- Concrete example graph: four units, unit 1 depends on unit 0 and unit 3
depends on unit 2. -/
def exFS0 : FrameState :=
  { registry := [0, 1, 2, 3]
    deps := fun v => if v = 1 then [0] else if v = 3 then [2] else []
    dispatch := [0, 1, 2, 3]
    units := fun _ => exRT
    clock := 0 }

/-- Concrete example frame in its initial state. -/
def exS0 : FrameState := frameStart exFS0

/-- Thread 7 wins the compare-and-swap on unit 0. -/
def exS1 : FrameState := doAcquire exS0 7 0

/-- Unit 0 moves to Running; its start timestamp is 1. -/
def exS2 : FrameState := doRun exS1 0

/-- The body of unit 0 performs a memory write at timestamp 2. -/
def exS3 : FrameState := doWork exS2 0

/-- Unit 0 completes at timestamp 3. -/
def exS4 : FrameState := doFinish exS3 0 true

/-- Thread 8 wins the compare-and-swap on unit 1, whose predecessor 0 is now
Complete. -/
def exS5 : FrameState := doAcquire exS4 8 1

/-- Unit 1 moves to Running; its start timestamp is 5. -/
def exS6 : FrameState := doRun exS5 1

/-- The body of unit 1 performs a memory read at timestamp 6. -/
def exS7 : FrameState := doWork exS6 1

/-- Thread 9 wins the compare-and-swap on unit 2. -/
def exS8 : FrameState := doAcquire exS7 9 2

/-- Unit 2 moves to Running; its start timestamp is 8. -/
def exS9 : FrameState := doRun exS8 2

/-- The body of unit 2 reports failure: unit 2 moves to Failed at timestamp 9.
Its dependent, unit 3, is never acquired this frame. -/
def exSF : FrameState := doFinish exS9 2 false

/-- A one-unit example frame used to exhibit a terminal state. -/
def tFS0 : FrameState :=
  { registry := [0]
    deps := fun _ => []
    dispatch := [0]
    units := fun _ => exRT
    clock := 0 }

/-- The one-unit example frame in its initial state. -/
def tS0 : FrameState := frameStart tFS0

/-- Thread 4 wins the compare-and-swap on the only unit. -/
def tS1 : FrameState := doAcquire tS0 4 0

/-- The only unit moves to Running. -/
def tS2 : FrameState := doRun tS1 0

/-- The only unit completes: the frame is terminal. -/
def tS3 : FrameState := doFinish tS2 0 true

/-- A scheduler with a frame in flight, for the legality checks. -/
def exSchedBusy : Scheduler :=
  { frame := exFS0, cacheDirty := false, inFlight := true }

/-- A scheduler between frames, for the legality checks. -/
def exSchedIdle : Scheduler :=
  { frame := exFS0, cacheDirty := false, inFlight := false }

/-- Unfolding of the unit map after updating one unit. -/
lemma units_updateUnit (fs : FrameState) (u : Handle) (r : UnitRT) (v : Handle) :
    (updateUnit fs u r).units v = if v = u then r else fs.units v := by
  simp [updateUnit, Function.update_apply]

/-- The logical clock advances by exactly one at every update. -/
lemma clock_updateUnit (fs : FrameState) (u : Handle) (r : UnitRT) :
    (updateUnit fs u r).clock = fs.clock + 1 := by
  simp [updateUnit]

/-- A step never touches the registry, the dependency lists or the dispatch
sequence. -/
lemma step_structure {fs fs2 : FrameState} (h : Step fs fs2) :
    fs2.registry = fs.registry ∧ fs2.deps = fs.deps ∧ fs2.dispatch = fs.dispatch := by
  cases h <;>
    simp [doAcquire, doRun, doWork, doFinish, updateUnit]

/-- A step advances the logical clock by exactly one. -/
lemma step_clock {fs fs2 : FrameState} (h : Step fs fs2) :
    fs2.clock = fs.clock + 1 := by
  cases h <;>
    simp [doAcquire, doRun, doWork, doFinish, updateUnit]

/-- Complete and Failed are absorbing within a frame: no step touches a unit
that has already finished. -/
lemma step_frozen {fs fs2 : FrameState} (h : Step fs fs2) (u : Handle)
    (hu : (fs.units u).state = UnitState.Complete ∨ (fs.units u).state = UnitState.Failed) :
    fs2.units u = fs.units u := by
  cases h with
  | acquire t v hreg hst hdeps =>
      by_cases hv : u = v
      · subst hv; rcases hu with h1 | h1 <;> rw [hst] at h1 <;> exact absurd h1 (by simp)
      · simp [doAcquire, units_updateUnit, hv]
  | run t v hst hown =>
      by_cases hv : u = v
      · subst hv; rcases hu with h1 | h1 <;> rw [hst] at h1 <;> exact absurd h1 (by simp)
      · simp [doRun, units_updateUnit, hv]
  | work t v hst hown =>
      by_cases hv : u = v
      · subst hv; rcases hu with h1 | h1 <;> rw [hst] at h1 <;> exact absurd h1 (by simp)
      · simp [doWork, units_updateUnit, hv]
  | finish t v ok hst hown =>
      by_cases hv : u = v
      · subst hv; rcases hu with h1 | h1 <;> rw [hst] at h1 <;> exact absurd h1 (by simp)
      · simp [doFinish, units_updateUnit, hv]

/-- The inductive invariant of the in-frame semantics, established at frame
start and preserved by every step: consistency of each state of the state
machine with the instrumentation, the dependency gate, and the ordering of
finish timestamps of predecessors against start timestamps of dependents. -/
structure Inv (fs : FrameState) : Prop where
  ready0 : ∀ u, (fs.units u).state = UnitState.Ready →
    (fs.units u).invocations = 0 ∧ (fs.units u).owner = none ∧
    (fs.units u).startTime = none ∧ (fs.units u).finishTime = none ∧
    (fs.units u).bodyEvents = []
  starting0 : ∀ u, (fs.units u).state = UnitState.Starting →
    (fs.units u).invocations = 0 ∧ (∃ t, (fs.units u).owner = some t) ∧
    (fs.units u).startTime = none ∧ (fs.units u).finishTime = none ∧
    (fs.units u).bodyEvents = []
  running1 : ∀ u, (fs.units u).state = UnitState.Running →
    (fs.units u).invocations = 1 ∧ (∃ t, (fs.units u).owner = some t) ∧
    (fs.units u).finishTime = none ∧
    ∃ s, (fs.units u).startTime = some s ∧ s < fs.clock ∧
      ∀ e ∈ (fs.units u).bodyEvents, s < e ∧ e < fs.clock
  done1 : ∀ u,
    ((fs.units u).state = UnitState.Complete ∨ (fs.units u).state = UnitState.Failed) →
    (fs.units u).invocations = 1 ∧
    ∃ s f, (fs.units u).startTime = some s ∧ (fs.units u).finishTime = some f ∧
      s < f ∧ f < fs.clock ∧ ∀ e ∈ (fs.units u).bodyEvents, s < e ∧ e < f
  gate : ∀ u, (fs.units u).state ≠ UnitState.Ready →
    ∀ p ∈ fs.deps u, (fs.units p).state = UnitState.Complete
  startAfterPred : ∀ u s, (fs.units u).startTime = some s →
    ∀ p ∈ fs.deps u, ∃ f, (fs.units p).finishTime = some f ∧ f < s

/-- The invariant holds at frame start. -/
lemma invFrameStart (fs : FrameState) : Inv (frameStart fs) := by
  constructor <;> intro u <;> simp [frameStart, resetUnit]

/-- Updating a unit record leaves the dependency lists untouched. -/
lemma deps_updateUnit (fs : FrameState) (u : Handle) (r : UnitRT) :
    (updateUnit fs u r).deps = fs.deps := by
  simp [updateUnit]

/-- Unfolding of the acquired unit after an acquisition. -/
lemma doAcquire_units_self (fs : FrameState) (t : ThreadId) (u : Handle) :
    (doAcquire fs t u).units u =
      { fs.units u with
          state := UnitState.Starting
          owner := some t } := by
  simp [doAcquire, units_updateUnit]

/-- An acquisition leaves every other unit untouched. -/
lemma doAcquire_units_other (fs : FrameState) (t : ThreadId) {v u : Handle} (h : v ≠ u) :
    (doAcquire fs t u).units v = fs.units v := by
  simp [doAcquire, units_updateUnit, h]

/-- An acquisition leaves the dependency lists untouched. -/
lemma doAcquire_deps (fs : FrameState) (t : ThreadId) (u : Handle) :
    (doAcquire fs t u).deps = fs.deps := by
  simp [doAcquire, deps_updateUnit]

/-- An acquisition advances the clock by one. -/
lemma doAcquire_clock (fs : FrameState) (t : ThreadId) (u : Handle) :
    (doAcquire fs t u).clock = fs.clock + 1 := by
  simp [doAcquire, clock_updateUnit]

/-- Unfolding of the started unit when it moves to Running. -/
lemma doRun_units_self (fs : FrameState) (u : Handle) :
    (doRun fs u).units u =
      { fs.units u with
          state := UnitState.Running
          invocations := (fs.units u).invocations + 1
          startTime := some fs.clock } := by
  simp [doRun, units_updateUnit]

/-- Moving a unit to Running leaves every other unit untouched. -/
lemma doRun_units_other (fs : FrameState) {v u : Handle} (h : v ≠ u) :
    (doRun fs u).units v = fs.units v := by
  simp [doRun, units_updateUnit, h]

/-- Moving a unit to Running leaves the dependency lists untouched. -/
lemma doRun_deps (fs : FrameState) (u : Handle) :
    (doRun fs u).deps = fs.deps := by
  simp [doRun, deps_updateUnit]

/-- Moving a unit to Running advances the clock by one. -/
lemma doRun_clock (fs : FrameState) (u : Handle) :
    (doRun fs u).clock = fs.clock + 1 := by
  simp [doRun, clock_updateUnit]

/-- Unfolding of the running unit after one body memory event. -/
lemma doWork_units_self (fs : FrameState) (u : Handle) :
    (doWork fs u).units u =
      { fs.units u with
          bodyEvents := fs.clock :: (fs.units u).bodyEvents } := by
  simp [doWork, units_updateUnit]

/-- A body memory event leaves every other unit untouched. -/
lemma doWork_units_other (fs : FrameState) {v u : Handle} (h : v ≠ u) :
    (doWork fs u).units v = fs.units v := by
  simp [doWork, units_updateUnit, h]

/-- A body memory event leaves the dependency lists untouched. -/
lemma doWork_deps (fs : FrameState) (u : Handle) :
    (doWork fs u).deps = fs.deps := by
  simp [doWork, deps_updateUnit]

/-- A body memory event advances the clock by one. -/
lemma doWork_clock (fs : FrameState) (u : Handle) :
    (doWork fs u).clock = fs.clock + 1 := by
  simp [doWork, clock_updateUnit]

/-- Unfolding of the finishing unit. -/
lemma doFinish_units_self (fs : FrameState) (u : Handle) (ok : Bool) :
    (doFinish fs u ok).units u =
      { fs.units u with
          state := if ok then UnitState.Complete else UnitState.Failed
          finishTime := some fs.clock } := by
  simp [doFinish, units_updateUnit]

/-- Finishing a unit leaves every other unit untouched. -/
lemma doFinish_units_other (fs : FrameState) {v u : Handle} (ok : Bool) (h : v ≠ u) :
    (doFinish fs u ok).units v = fs.units v := by
  simp [doFinish, units_updateUnit, h]

/-- Finishing a unit leaves the dependency lists untouched. -/
lemma doFinish_deps (fs : FrameState) (u : Handle) (ok : Bool) :
    (doFinish fs u ok).deps = fs.deps := by
  simp [doFinish, deps_updateUnit]

/-- Finishing a unit advances the clock by one. -/
lemma doFinish_clock (fs : FrameState) (u : Handle) (ok : Bool) :
    (doFinish fs u ok).clock = fs.clock + 1 := by
  simp [doFinish, clock_updateUnit]

/-- The invariant is preserved by a successful acquisition. -/
lemma invAcquire {fs : FrameState} (hI : Inv fs) (t : ThreadId) (u : Handle)
    (hst : (fs.units u).state = UnitState.Ready)
    (hdeps : ∀ p ∈ fs.deps u, (fs.units p).state = UnitState.Complete) :
    Inv (doAcquire fs t u) := by
  obtain ⟨hinv0, hown0, hstart0, hfin0, hbody0⟩ := hI.ready0 u hst
  constructor
  · intro v hv
    by_cases hvu : v = u
    · rw [hvu, doAcquire_units_self] at hv
      exact UnitState.noConfusion hv
    · rw [doAcquire_units_other fs t hvu] at hv ⊢
      exact hI.ready0 v hv
  · intro v hv
    by_cases hvu : v = u
    · rw [hvu] at hv ⊢
      rw [doAcquire_units_self] at hv ⊢
      exact ⟨hinv0, ⟨t, rfl⟩, hstart0, hfin0, hbody0⟩
    · rw [doAcquire_units_other fs t hvu] at hv ⊢
      exact hI.starting0 v hv
  · intro v hv
    by_cases hvu : v = u
    · rw [hvu, doAcquire_units_self] at hv
      exact UnitState.noConfusion hv
    · rw [doAcquire_units_other fs t hvu] at hv ⊢
      rw [doAcquire_clock]
      obtain ⟨h1, h2, h3, s, hs, hsc, hb⟩ := hI.running1 v hv
      exact ⟨h1, h2, h3, s, hs, Nat.lt_succ_of_lt hsc,
        fun e he => ⟨(hb e he).1, Nat.lt_succ_of_lt (hb e he).2⟩⟩
  · intro v hv
    by_cases hvu : v = u
    · rw [hvu, doAcquire_units_self] at hv
      rcases hv with hv | hv <;> exact UnitState.noConfusion hv
    · rw [doAcquire_units_other fs t hvu] at hv ⊢
      rw [doAcquire_clock]
      obtain ⟨h1, s, f, hs, hf, hsf, hfc, hb⟩ := hI.done1 v hv
      exact ⟨h1, s, f, hs, hf, hsf, Nat.lt_succ_of_lt hfc, hb⟩
  · intro v hv p hp
    rw [doAcquire_deps] at hp
    by_cases hvu : v = u
    · rw [hvu] at hp
      have hpc := hdeps p hp
      have hpu : p ≠ u := by
        intro h; subst h; exact UnitState.noConfusion (hst.symm.trans hpc)
      rw [doAcquire_units_other fs t hpu]
      exact hpc
    · rw [doAcquire_units_other fs t hvu] at hv
      have hpc := hI.gate v hv p hp
      have hpu : p ≠ u := by
        intro h; subst h; exact UnitState.noConfusion (hst.symm.trans hpc)
      rw [doAcquire_units_other fs t hpu]
      exact hpc
  · intro v s hvs p hp
    rw [doAcquire_deps] at hp
    by_cases hvu : v = u
    · rw [hvu, doAcquire_units_self] at hvs
      exact Option.noConfusion (hstart0.symm.trans hvs)
    · rw [doAcquire_units_other fs t hvu] at hvs
      obtain ⟨f, hf, hfs⟩ := hI.startAfterPred v s hvs p hp
      have hpu : p ≠ u := by
        intro h; subst h; exact Option.noConfusion (hfin0.symm.trans hf)
      rw [doAcquire_units_other fs t hpu]
      exact ⟨f, hf, hfs⟩

/-- The invariant is preserved by moving a starting unit to Running. -/
lemma invRun {fs : FrameState} (hI : Inv fs) (t : ThreadId) (u : Handle)
    (hst : (fs.units u).state = UnitState.Starting)
    (hown : (fs.units u).owner = some t) :
    Inv (doRun fs u) := by
  obtain ⟨hinv0, hownS, hstart0, hfin0, hbody0⟩ := hI.starting0 u hst
  have hnotReady : (fs.units u).state ≠ UnitState.Ready := by
    rw [hst]; exact fun h => UnitState.noConfusion h
  constructor
  · intro v hv
    by_cases hvu : v = u
    · rw [hvu, doRun_units_self] at hv
      exact UnitState.noConfusion hv
    · rw [doRun_units_other fs hvu] at hv ⊢
      exact hI.ready0 v hv
  · intro v hv
    by_cases hvu : v = u
    · rw [hvu, doRun_units_self] at hv
      exact UnitState.noConfusion hv
    · rw [doRun_units_other fs hvu] at hv ⊢
      exact hI.starting0 v hv
  · intro v hv
    by_cases hvu : v = u
    · rw [hvu] at hv ⊢
      rw [doRun_units_self] at hv ⊢
      rw [doRun_clock]
      refine ⟨by rw [hinv0], ⟨t, hown⟩, hfin0, fs.clock, rfl, Nat.lt_succ_self _, ?_⟩
      intro e he
      have he2 : e ∈ (fs.units u).bodyEvents := he
      rw [hbody0] at he2
      cases he2
    · rw [doRun_units_other fs hvu] at hv ⊢
      rw [doRun_clock]
      obtain ⟨h1, h2, h3, s, hs, hsc, hb⟩ := hI.running1 v hv
      exact ⟨h1, h2, h3, s, hs, Nat.lt_succ_of_lt hsc,
        fun e he => ⟨(hb e he).1, Nat.lt_succ_of_lt (hb e he).2⟩⟩
  · intro v hv
    by_cases hvu : v = u
    · rw [hvu, doRun_units_self] at hv
      rcases hv with hv | hv <;> exact UnitState.noConfusion hv
    · rw [doRun_units_other fs hvu] at hv ⊢
      rw [doRun_clock]
      obtain ⟨h1, s, f, hs, hf, hsf, hfc, hb⟩ := hI.done1 v hv
      exact ⟨h1, s, f, hs, hf, hsf, Nat.lt_succ_of_lt hfc, hb⟩
  · intro v hv p hp
    rw [doRun_deps] at hp
    by_cases hvu : v = u
    · rw [hvu] at hp
      have hpc := hI.gate u hnotReady p hp
      have hpu : p ≠ u := by
        intro h; subst h; exact UnitState.noConfusion (hst.symm.trans hpc)
      rw [doRun_units_other fs hpu]
      exact hpc
    · rw [doRun_units_other fs hvu] at hv
      have hpc := hI.gate v hv p hp
      have hpu : p ≠ u := by
        intro h; subst h; exact UnitState.noConfusion (hst.symm.trans hpc)
      rw [doRun_units_other fs hpu]
      exact hpc
  · intro v s hvs p hp
    rw [doRun_deps] at hp
    by_cases hvu : v = u
    · rw [hvu, doRun_units_self] at hvs
      have hs : fs.clock = s := Option.some.inj hvs
      rw [hvu] at hp
      have hpc := hI.gate u hnotReady p hp
      have hpu : p ≠ u := by
        intro h; subst h; exact UnitState.noConfusion (hst.symm.trans hpc)
      obtain ⟨_, s2, f, _, hf, _, hfc, _⟩ := hI.done1 p (Or.inl hpc)
      rw [doRun_units_other fs hpu]
      exact ⟨f, hf, by omega⟩
    · rw [doRun_units_other fs hvu] at hvs
      obtain ⟨f, hf, hfs⟩ := hI.startAfterPred v s hvs p hp
      have hpu : p ≠ u := by
        intro h; subst h; exact Option.noConfusion (hfin0.symm.trans hf)
      rw [doRun_units_other fs hpu]
      exact ⟨f, hf, hfs⟩

/-- The invariant is preserved by a body memory event of a running unit. -/
lemma invWork {fs : FrameState} (hI : Inv fs) (u : Handle)
    (hst : (fs.units u).state = UnitState.Running) :
    Inv (doWork fs u) := by
  obtain ⟨hinv1, hownR, hfinR, s0, hs0, hs0c, hb0⟩ := hI.running1 u hst
  have hnotReady : (fs.units u).state ≠ UnitState.Ready := by
    rw [hst]; exact fun h => UnitState.noConfusion h
  constructor
  · intro v hv
    by_cases hvu : v = u
    · rw [hvu, doWork_units_self] at hv
      have hv2 : (fs.units u).state = UnitState.Ready := hv
      exact UnitState.noConfusion (hst.symm.trans hv2)
    · rw [doWork_units_other fs hvu] at hv ⊢
      exact hI.ready0 v hv
  · intro v hv
    by_cases hvu : v = u
    · rw [hvu, doWork_units_self] at hv
      have hv2 : (fs.units u).state = UnitState.Starting := hv
      exact UnitState.noConfusion (hst.symm.trans hv2)
    · rw [doWork_units_other fs hvu] at hv ⊢
      exact hI.starting0 v hv
  · intro v hv
    by_cases hvu : v = u
    · rw [hvu] at hv ⊢
      rw [doWork_units_self] at hv ⊢
      rw [doWork_clock]
      refine ⟨hinv1, hownR, hfinR, s0, hs0, Nat.lt_succ_of_lt hs0c, ?_⟩
      intro e he
      have he2 : e ∈ fs.clock :: (fs.units u).bodyEvents := he
      rcases List.mem_cons.mp he2 with rfl | hmem
      · exact ⟨hs0c, Nat.lt_succ_self _⟩
      · exact ⟨(hb0 e hmem).1, Nat.lt_succ_of_lt (hb0 e hmem).2⟩
    · rw [doWork_units_other fs hvu] at hv ⊢
      rw [doWork_clock]
      obtain ⟨h1, h2, h3, s, hs, hsc, hb⟩ := hI.running1 v hv
      exact ⟨h1, h2, h3, s, hs, Nat.lt_succ_of_lt hsc,
        fun e he => ⟨(hb e he).1, Nat.lt_succ_of_lt (hb e he).2⟩⟩
  · intro v hv
    by_cases hvu : v = u
    · rw [hvu, doWork_units_self] at hv
      have hv2 : (fs.units u).state = UnitState.Complete ∨
          (fs.units u).state = UnitState.Failed := hv
      rcases hv2 with hv2 | hv2 <;> exact UnitState.noConfusion (hst.symm.trans hv2)
    · rw [doWork_units_other fs hvu] at hv ⊢
      rw [doWork_clock]
      obtain ⟨h1, s, f, hs, hf, hsf, hfc, hb⟩ := hI.done1 v hv
      exact ⟨h1, s, f, hs, hf, hsf, Nat.lt_succ_of_lt hfc, hb⟩
  · intro v hv p hp
    rw [doWork_deps] at hp
    by_cases hvu : v = u
    · rw [hvu] at hp
      have hpc := hI.gate u hnotReady p hp
      have hpu : p ≠ u := by
        intro h; subst h; exact UnitState.noConfusion (hst.symm.trans hpc)
      rw [doWork_units_other fs hpu]
      exact hpc
    · rw [doWork_units_other fs hvu] at hv
      have hpc := hI.gate v hv p hp
      have hpu : p ≠ u := by
        intro h; subst h; exact UnitState.noConfusion (hst.symm.trans hpc)
      rw [doWork_units_other fs hpu]
      exact hpc
  · intro v s hvs p hp
    rw [doWork_deps] at hp
    by_cases hvu : v = u
    · rw [hvu, doWork_units_self] at hvs
      have hvs2 : (fs.units u).startTime = some s := hvs
      rw [hvu] at hp
      obtain ⟨f, hf, hfs⟩ := hI.startAfterPred u s hvs2 p hp
      have hpu : p ≠ u := by
        intro h; subst h; exact Option.noConfusion (hfinR.symm.trans hf)
      rw [doWork_units_other fs hpu]
      exact ⟨f, hf, hfs⟩
    · rw [doWork_units_other fs hvu] at hvs
      obtain ⟨f, hf, hfs⟩ := hI.startAfterPred v s hvs p hp
      have hpu : p ≠ u := by
        intro h; subst h; exact Option.noConfusion (hfinR.symm.trans hf)
      rw [doWork_units_other fs hpu]
      exact ⟨f, hf, hfs⟩

/-- The invariant is preserved when a running unit finishes, successfully or
with a failure. -/
lemma invFinish {fs : FrameState} (hI : Inv fs) (u : Handle) (ok : Bool)
    (hst : (fs.units u).state = UnitState.Running) :
    Inv (doFinish fs u ok) := by
  obtain ⟨hinv1, hownR, hfinR, s0, hs0, hs0c, hb0⟩ := hI.running1 u hst
  have hnotReady : (fs.units u).state ≠ UnitState.Ready := by
    rw [hst]; exact fun h => UnitState.noConfusion h
  constructor
  · intro v hv
    by_cases hvu : v = u
    · rw [hvu, doFinish_units_self] at hv
      cases ok <;> exact UnitState.noConfusion hv
    · rw [doFinish_units_other fs ok hvu] at hv ⊢
      exact hI.ready0 v hv
  · intro v hv
    by_cases hvu : v = u
    · rw [hvu, doFinish_units_self] at hv
      cases ok <;> exact UnitState.noConfusion hv
    · rw [doFinish_units_other fs ok hvu] at hv ⊢
      exact hI.starting0 v hv
  · intro v hv
    by_cases hvu : v = u
    · rw [hvu, doFinish_units_self] at hv
      cases ok <;> exact UnitState.noConfusion hv
    · rw [doFinish_units_other fs ok hvu] at hv ⊢
      rw [doFinish_clock]
      obtain ⟨h1, h2, h3, s, hs, hsc, hb⟩ := hI.running1 v hv
      exact ⟨h1, h2, h3, s, hs, Nat.lt_succ_of_lt hsc,
        fun e he => ⟨(hb e he).1, Nat.lt_succ_of_lt (hb e he).2⟩⟩
  · intro v hv
    by_cases hvu : v = u
    · rw [hvu] at hv ⊢
      rw [doFinish_units_self] at hv ⊢
      rw [doFinish_clock]
      refine ⟨hinv1, s0, fs.clock, hs0, rfl, hs0c, Nat.lt_succ_self _, ?_⟩
      intro e he
      have he2 : e ∈ (fs.units u).bodyEvents := he
      exact ⟨(hb0 e he2).1, (hb0 e he2).2⟩
    · rw [doFinish_units_other fs ok hvu] at hv ⊢
      rw [doFinish_clock]
      obtain ⟨h1, s, f, hs, hf, hsf, hfc, hb⟩ := hI.done1 v hv
      exact ⟨h1, s, f, hs, hf, hsf, Nat.lt_succ_of_lt hfc, hb⟩
  · intro v hv p hp
    rw [doFinish_deps] at hp
    by_cases hvu : v = u
    · rw [hvu] at hp
      have hpc := hI.gate u hnotReady p hp
      have hpu : p ≠ u := by
        intro h; subst h; exact UnitState.noConfusion (hst.symm.trans hpc)
      rw [doFinish_units_other fs ok hpu]
      exact hpc
    · rw [doFinish_units_other fs ok hvu] at hv
      have hpc := hI.gate v hv p hp
      have hpu : p ≠ u := by
        intro h; subst h; exact UnitState.noConfusion (hst.symm.trans hpc)
      rw [doFinish_units_other fs ok hpu]
      exact hpc
  · intro v s hvs p hp
    rw [doFinish_deps] at hp
    by_cases hvu : v = u
    · rw [hvu, doFinish_units_self] at hvs
      have hvs2 : (fs.units u).startTime = some s := hvs
      rw [hvu] at hp
      obtain ⟨f, hf, hfs⟩ := hI.startAfterPred u s hvs2 p hp
      have hpu : p ≠ u := by
        intro h; subst h; exact Option.noConfusion (hfinR.symm.trans hf)
      rw [doFinish_units_other fs ok hpu]
      exact ⟨f, hf, hfs⟩
    · rw [doFinish_units_other fs ok hvu] at hvs
      obtain ⟨f, hf, hfs⟩ := hI.startAfterPred v s hvs p hp
      have hpu : p ≠ u := by
        intro h; subst h; exact Option.noConfusion (hfinR.symm.trans hf)
      rw [doFinish_units_other fs ok hpu]
      exact ⟨f, hf, hfs⟩

/-- The invariant is preserved by every step of the in-frame semantics. -/
lemma invStep {fs fs2 : FrameState} (hI : Inv fs) (h : Step fs fs2) : Inv fs2 := by
  cases h with
  | acquire t u hreg hst hdeps => exact invAcquire hI t u hst hdeps
  | run t u hst hown => exact invRun hI t u hst hown
  | work t u hst hown => exact invWork hI u hst
  | finish t u ok hst hown => exact invFinish hI u ok hst

/-- The invariant holds in every state reachable within one frame. -/
lemma invReach {fs0 fs : FrameState} (h : Reach (frameStart fs0) fs) : Inv fs := by
  induction h with
  | refl => exact invFrameStart fs0
  | tail _ hstep ih => exact invStep ih hstep

/-- No in-frame execution ever changes the registry, the dependency lists or
the dispatch sequence. -/
lemma reachStructure {fs fs2 : FrameState} (h : Reach fs fs2) :
    fs2.registry = fs.registry ∧ fs2.deps = fs.deps ∧ fs2.dispatch = fs.dispatch := by
  induction h with
  | refl => exact ⟨rfl, rfl, rfl⟩
  | tail _ hstep ih =>
      obtain ⟨h1, h2, h3⟩ := step_structure hstep
      exact ⟨h1.trans ih.1, h2.trans ih.2.1, h3.trans ih.2.2⟩

/-- Under the invariant no unit has been invoked more than once. -/
lemma invocationsLeOne {fs : FrameState} (hI : Inv fs) (u : Handle) :
    (fs.units u).invocations ≤ 1 := by
  cases hstu : (fs.units u).state with
  | Ready => have := (hI.ready0 u hstu).1; omega
  | Starting => have := (hI.starting0 u hstu).1; omega
  | Running => have := (hI.running1 u hstu).1; omega
  | Complete => have := (hI.done1 u (Or.inl hstu)).1; omega
  | Failed => have := (hI.done1 u (Or.inr hstu)).1; omega

/-- Under the invariant a unit with a failed transitive predecessor still holds
the ready sentinel: it was never acquired. -/
lemma failedAncestorReady {fs : FrameState} (hI : Inv fs) :
    ∀ p u, TransPred fs.deps p u → (fs.units p).state = UnitState.Failed →
      (fs.units u).state = UnitState.Ready := by
  intro p u htr
  induction htr with
  | base hp =>
      intro hf
      by_contra hne
      have hpc := hI.gate _ hne _ hp
      exact UnitState.noConfusion (hf.symm.trans hpc)
  | tail _ hq ih =>
      intro hf
      have hqr := ih hf
      by_contra hne
      have hqc := hI.gate _ hne _ hq
      exact UnitState.noConfusion (hqr.symm.trans hqc)

/-- Under the invariant, in a terminal state every registered unit either
finished (Complete or Failed) or still holds the ready sentinel because some
transitive predecessor failed. The rank function witnesses acyclicity of the
dependency graph and the closure hypothesis keeps predecessor chains inside
the registry. -/
lemma terminalClassify {fs : FrameState} (hI : Inv fs) (hT : Terminal fs)
    (rank : Handle → Nat) (hrank : ∀ u, ∀ p ∈ fs.deps u, rank p < rank u)
    (hclosed : ∀ u ∈ fs.registry, ∀ p ∈ fs.deps u, p ∈ fs.registry) :
    ∀ u ∈ fs.registry,
      ((fs.units u).state = UnitState.Complete ∨ (fs.units u).state = UnitState.Failed) ∨
        ((fs.units u).state = UnitState.Ready ∧
          ∃ p, TransPred fs.deps p u ∧ (fs.units p).state = UnitState.Failed) := by
  suffices h : ∀ n, ∀ u ∈ fs.registry, rank u < n →
      ((fs.units u).state = UnitState.Complete ∨ (fs.units u).state = UnitState.Failed) ∨
        ((fs.units u).state = UnitState.Ready ∧
          ∃ p, TransPred fs.deps p u ∧ (fs.units p).state = UnitState.Failed) by
    intro u hu
    exact h (rank u + 1) u hu (Nat.lt_succ_self _)
  intro n
  induction n with
  | zero => intro u _ h0; exact absurd h0 (Nat.not_lt_zero _)
  | succ n ih =>
      intro u hu hr
      cases hstu : (fs.units u).state with
      | Complete => exact Or.inl (Or.inl rfl)
      | Failed => exact Or.inl (Or.inr rfl)
      | Starting =>
          obtain ⟨_, ⟨t, hown⟩, _, _, _⟩ := hI.starting0 u hstu
          exact absurd (Step.run fs t u hstu hown) (hT _)
      | Running =>
          obtain ⟨_, ⟨t, hown⟩, _, _⟩ := hI.running1 u hstu
          exact absurd (Step.finish fs t u true hstu hown) (hT _)
      | Ready =>
          by_cases hall : ∀ p ∈ fs.deps u, (fs.units p).state = UnitState.Complete
          · exact absurd (Step.acquire fs 0 u hu hstu hall) (hT _)
          · push_neg at hall
            obtain ⟨p, hp, hpc⟩ := hall
            have hpreg := hclosed u hu p hp
            have hrp : rank p < n := Nat.lt_of_lt_of_le (hrank u p hp) (Nat.lt_succ_iff.mp hr)
            rcases ih p hpreg hrp with hdone | ⟨_, q, htr, hqf⟩
            · rcases hdone with hc | hf2
              · exact absurd hc hpc
              · exact Or.inr ⟨rfl, p, TransPred.base hp, hf2⟩
            · exact Or.inr ⟨rfl, q, TransPred.tail htr hp, hqf⟩

/-- Under the invariant a unit with a recorded finish timestamp has finished. -/
lemma finishedOfFinishTime {fs : FrameState} (hI : Inv fs) (p : Handle) (f : Nat)
    (hf : (fs.units p).finishTime = some f) :
    (fs.units p).state = UnitState.Complete ∨ (fs.units p).state = UnitState.Failed := by
  cases hstp : (fs.units p).state with
  | Ready =>
      obtain ⟨_, _, _, h4, _⟩ := hI.ready0 p hstp
      exact Option.noConfusion (h4.symm.trans hf)
  | Starting =>
      obtain ⟨_, _, _, h4, _⟩ := hI.starting0 p hstp
      exact Option.noConfusion (h4.symm.trans hf)
  | Running =>
      obtain ⟨_, _, h4, _⟩ := hI.running1 p hstp
      exact Option.noConfusion (h4.symm.trans hf)
  | Complete => exact Or.inl rfl
  | Failed => exact Or.inr rfl

/-- Under the invariant every body memory event of a unit comes strictly after
the recorded start of that unit. -/
lemma eventsAfterStart {fs : FrameState} (hI : Inv fs) (v : Handle) (s : Nat)
    (hvs : (fs.units v).startTime = some s) :
    ∀ e ∈ (fs.units v).bodyEvents, s < e := by
  cases hstv : (fs.units v).state with
  | Ready =>
      obtain ⟨_, _, h3, _, _⟩ := hI.ready0 v hstv
      exact Option.noConfusion (h3.symm.trans hvs)
  | Starting =>
      obtain ⟨_, _, h3, _, _⟩ := hI.starting0 v hstv
      exact Option.noConfusion (h3.symm.trans hvs)
  | Running =>
      obtain ⟨_, _, _, s2, hs2, _, hb⟩ := hI.running1 v hstv
      have hse : s2 = s := Option.some.inj (hs2.symm.trans hvs)
      intro e he
      exact hse ▸ (hb e he).1
  | Complete =>
      obtain ⟨_, s2, f2, hs2, _, _, _, hb⟩ := hI.done1 v (Or.inl hstv)
      have hse : s2 = s := Option.some.inj (hs2.symm.trans hvs)
      intro e he
      exact hse ▸ (hb e he).1
  | Failed =>
      obtain ⟨_, s2, f2, hs2, _, _, _, hb⟩ := hI.done1 v (Or.inr hstv)
      have hse : s2 = s := Option.some.inj (hs2.symm.trans hvs)
      intro e he
      exact hse ▸ (hb e he).1

/-- Under the invariant every body memory event of a finished unit comes
strictly before the recorded finish of that unit. -/
lemma eventsBeforeFinish {fs : FrameState} (hI : Inv fs) (p : Handle) (f : Nat)
    (hf : (fs.units p).finishTime = some f) :
    ∀ e ∈ (fs.units p).bodyEvents, e < f := by
  obtain ⟨_, s2, f2, _, hf2, _, _, hb⟩ := hI.done1 p (finishedOfFinishTime hI p f hf)
  have hfe : f2 = f := Option.some.inj (hf2.symm.trans hf)
  intro e he
  exact hfe ▸ (hb e he).2

/-- The readiness test unfolded to its propositional content. -/
lemma readyUnit_iff (fs : FrameState) (u : Handle) :
    readyUnit fs u = true ↔
      ((fs.units u).state = UnitState.Ready ∧
        ∀ p ∈ fs.deps u, (fs.units p).state = UnitState.Complete) := by
  simp [readyUnit, List.all_eq_true]

/-- A single scan finds the first ready unit, skipping strictly fewer entries
than the length of the sequence. -/
lemma scanFindsFirst (fs : FrameState) :
    ∀ seq : List Handle, (∃ u ∈ seq, readyUnit fs u = true) →
      ∃ v, scanAcquire fs seq = some v ∧ v ∈ seq ∧ readyUnit fs v = true ∧
        (seq.takeWhile (fun u => ! readyUnit fs u)).length < seq.length := by
  intro seq
  induction seq with
  | nil => rintro ⟨u, hu, _⟩; cases hu
  | cons a l ih =>
      rintro ⟨u, hu, hru⟩
      by_cases ha : readyUnit fs a = true
      · refine ⟨a, ?_, List.mem_cons_self a l, ha, ?_⟩
        · simp [scanAcquire, List.find?_cons_of_pos, ha]
        · simp [List.takeWhile_cons, ha]
      · have hul : u ∈ l := by
          rcases List.mem_cons.mp hu with rfl | h2
          · exact absurd hru ha
          · exact h2
        obtain ⟨v, hfind, hmem, hrv, hlen⟩ := ih ⟨u, hul, hru⟩
        refine ⟨v, ?_, List.mem_cons_of_mem a hmem, hrv, ?_⟩
        · simpa [scanAcquire, List.find?_cons_of_neg, ha] using hfind
        · simp only [List.takeWhile_cons, Bool.not_eq_true]
          rw [if_pos (by simp [ha])]
          simpa [List.length_cons, Nat.add_lt_add_iff_right] using hlen

/-- A scan over a sequence with no ready unit comes back empty. -/
lemma scanEmpty (fs : FrameState) (seq : List Handle)
    (h : ∀ u ∈ seq, readyUnit fs u = false) : scanAcquire fs seq = none :=
  List.find?_eq_none.mpr (fun x hx => by simp [h x hx])

/-- The boolean key comparator is transitive. -/
lemma keyLE_trans (a b c : WorkUnitKey) (h1 : keyLE a b = true) (h2 : keyLE b c = true) :
    keyLE a c = true := by
  have h1p : keyOrder a b := of_decide_eq_true h1
  have h2p : keyOrder b c := of_decide_eq_true h2
  have h3 : keyOrder a c := by
    unfold keyOrder at h1p h2p ⊢
    omega
  exact decide_eq_true h3

/-- The boolean key comparator is total. -/
lemma keyLE_total (a b : WorkUnitKey) : (keyLE a b || keyLE b a) = true := by
  have h3 : keyOrder a b ∨ keyOrder b a := by
    unfold keyOrder
    omega
  rcases h3 with h3 | h3
  · rw [Bool.or_eq_true]
    exact Or.inl (decide_eq_true h3)
  · rw [Bool.or_eq_true]
    exact Or.inr (decide_eq_true h3)

/-- Writing into the current slot does not change what previous returns. -/
lemma previous_writeCurrent {α : Type} (d : DoubleBuffered α) (x : α) :
    previous (writeCurrent d x) = previous d := by
  cases hp : d.parity <;> simp [previous, writeCurrent, hp]

/-- Writing into the current slot does not change the parity. -/
lemma parity_writeCurrent {α : Type} (d : DoubleBuffered α) (x : α) :
    (writeCurrent d x).parity = d.parity := by
  cases hp : d.parity <;> simp [writeCurrent, hp]

/-- After a write the current slot holds the value written. -/
lemma current_writeCurrent {α : Type} (d : DoubleBuffered α) (x : α) :
    current (writeCurrent d x) = x := by
  cases hp : d.parity <;> simp [current, writeCurrent, hp, parity_writeCurrent]

/-- Flipping swaps the roles of the slots: previous then returns what current
returned before the flip. -/
lemma previous_flip {α : Type} (d : DoubleBuffered α) :
    previous (flip d) = current d := by
  cases hp : d.parity <;> simp [previous, flip, current, hp]

/-- A whole frame of writes leaves previous untouched. -/
lemma previous_foldl_writeCurrent {α : Type} :
    ∀ (ws : List α) (d : DoubleBuffered α),
      previous (List.foldl writeCurrent d ws) = previous d := by
  intro ws
  induction ws with
  | nil => intro d; rfl
  | cons w ws ih =>
      intro d
      rw [List.foldl_cons, ih, previous_writeCurrent]

/-- A whole frame of writes leaves the parity untouched. -/
lemma parity_foldl_writeCurrent {α : Type} :
    ∀ (ws : List α) (d : DoubleBuffered α),
      (List.foldl writeCurrent d ws).parity = d.parity := by
  intro ws
  induction ws with
  | nil => intro d; rfl
  | cons w ws ih =>
      intro d
      rw [List.foldl_cons, ih, parity_writeCurrent]

/-- Step 1 of the example trace. -/
lemma exStep1 : Step exS0 exS1 :=
  Step.acquire exS0 7 0 (by decide) (by decide) (by decide)

/-- Step 2 of the example trace. -/
lemma exStep2 : Step exS1 exS2 :=
  Step.run exS1 7 0 (by decide) (by decide)

/-- Step 3 of the example trace. -/
lemma exStep3 : Step exS2 exS3 :=
  Step.work exS2 7 0 (by decide) (by decide)

/-- Step 4 of the example trace. -/
lemma exStep4 : Step exS3 exS4 :=
  Step.finish exS3 7 0 true (by decide) (by decide)

/-- Step 5 of the example trace. -/
lemma exStep5 : Step exS4 exS5 :=
  Step.acquire exS4 8 1 (by decide) (by decide) (by decide)

/-- Step 6 of the example trace. -/
lemma exStep6 : Step exS5 exS6 :=
  Step.run exS5 8 1 (by decide) (by decide)

/-- Step 7 of the example trace. -/
lemma exStep7 : Step exS6 exS7 :=
  Step.work exS6 8 1 (by decide) (by decide)

/-- Step 8 of the example trace. -/
lemma exStep8 : Step exS7 exS8 :=
  Step.acquire exS7 9 2 (by decide) (by decide) (by decide)

/-- Step 9 of the example trace. -/
lemma exStep9 : Step exS8 exS9 :=
  Step.run exS8 9 2 (by decide) (by decide)

/-- Step 10 of the example trace: unit 2 fails. -/
lemma exStep10 : Step exS9 exSF :=
  Step.finish exS9 9 2 false (by decide) (by decide)

/-- The example end state is reachable from the frame start of the example
graph. -/
lemma exReach : Reach (frameStart exFS0) exSF := by
  have h1 : Relation.ReflTransGen Step exS0 exS1 := Relation.ReflTransGen.single exStep1
  have h2 := Relation.ReflTransGen.tail h1 exStep2
  have h3 := Relation.ReflTransGen.tail h2 exStep3
  have h4 := Relation.ReflTransGen.tail h3 exStep4
  have h5 := Relation.ReflTransGen.tail h4 exStep5
  have h6 := Relation.ReflTransGen.tail h5 exStep6
  have h7 := Relation.ReflTransGen.tail h6 exStep7
  have h8 := Relation.ReflTransGen.tail h7 exStep8
  have h9 := Relation.ReflTransGen.tail h8 exStep9
  exact Relation.ReflTransGen.tail h9 exStep10

/-- Step 1 of the one-unit trace. -/
lemma tStep1 : Step tS0 tS1 :=
  Step.acquire tS0 4 0 (by decide) (by decide) (by decide)

/-- Step 2 of the one-unit trace. -/
lemma tStep2 : Step tS1 tS2 :=
  Step.run tS1 4 0 (by decide) (by decide)

/-- Step 3 of the one-unit trace. -/
lemma tStep3 : Step tS2 tS3 :=
  Step.finish tS2 4 0 true (by decide) (by decide)

/-- The one-unit end state is reachable from its frame start. -/
lemma tReach : Reach (frameStart tFS0) tS3 := by
  have h1 : Relation.ReflTransGen Step tS0 tS1 := Relation.ReflTransGen.single tStep1
  have h2 := Relation.ReflTransGen.tail h1 tStep2
  exact Relation.ReflTransGen.tail h2 tStep3

/-- Every unit other than unit 0 is untouched in the one-unit end state. -/
lemma tS3_units_other (u : Handle) (hu : u ≠ 0) : tS3.units u = resetUnit exRT := by
  show (doFinish tS2 0 true).units u = resetUnit exRT
  rw [doFinish_units_other tS2 true hu]
  show (doRun tS1 0).units u = resetUnit exRT
  rw [doRun_units_other tS1 hu]
  show (doAcquire tS0 4 0).units u = resetUnit exRT
  rw [doAcquire_units_other tS0 4 hu]
  rfl

/-- The one-unit end state is terminal: no thread can take any step. -/
lemma tTerminal : Terminal tS3 := by
  intro fs2 h
  have hc : (tS3.units 0).state = UnitState.Complete := by decide
  cases h with
  | acquire t u hreg hst hdeps =>
      have hu : u = 0 := by
        have hr : u ∈ ([0] : List Handle) := hreg
        simpa using hr
      subst hu
      exact UnitState.noConfusion (hc.symm.trans hst)
  | run t u hst hown =>
      by_cases hu : u = 0
      · subst hu
        exact UnitState.noConfusion (hc.symm.trans hst)
      · rw [tS3_units_other u hu] at hst
        exact UnitState.noConfusion hst
  | work t u hst hown =>
      by_cases hu : u = 0
      · subst hu
        exact UnitState.noConfusion (hc.symm.trans hst)
      · rw [tS3_units_other u hu] at hst
        exact UnitState.noConfusion hst
  | finish t u ok hst hown =>
      by_cases hu : u = 0
      · subst hu
        exact UnitState.noConfusion (hc.symm.trans hst)
      · rw [tS3_units_other u hu] at hst
        exact UnitState.noConfusion hst

/-- C1: in every reachable frame state each body has been invoked at most
once; a Running unit was won through the atomic transition from the ready
sentinel (the Complete-sentinel of the spec) to Starting by exactly one owning
thread, with every predecessor Complete; and when the frame reaches a terminal
state over an acyclic registry-closed graph, every registered unit was invoked
exactly once, or zero times when a transitive predecessor failed. -/
theorem workUnitAtMostOnce {fs0 fs : FrameState} (h : Reach (frameStart fs0) fs) :
    (∀ u, (fs.units u).invocations ≤ 1) ∧
    (∀ u, (fs.units u).state = UnitState.Running →
      (fs.units u).invocations = 1 ∧ (∃ t, (fs.units u).owner = some t) ∧
        ∀ p ∈ fs.deps u, (fs.units p).state = UnitState.Complete) ∧
    (Terminal fs →
      ∀ rank : Handle → Nat, (∀ u, ∀ p ∈ fs.deps u, rank p < rank u) →
        (∀ u ∈ fs.registry, ∀ p ∈ fs.deps u, p ∈ fs.registry) →
        ∀ u ∈ fs.registry,
          (fs.units u).invocations = 1 ∨
            ((fs.units u).invocations = 0 ∧
              ∃ p, TransPred fs.deps p u ∧ (fs.units p).state = UnitState.Failed)) := by
  have hI := invReach h
  refine ⟨invocationsLeOne hI, ?_, ?_⟩
  · intro u hst
    obtain ⟨h1, h2, _, _⟩ := hI.running1 u hst
    refine ⟨h1, h2, hI.gate u ?_⟩
    rw [hst]
    exact fun hx => UnitState.noConfusion hx
  · intro hT rank hrank hclosed u hu
    rcases terminalClassify hI hT rank hrank hclosed u hu with hdone | ⟨hready, p, htr, hpf⟩
    · exact Or.inl (hI.done1 u hdone).1
    · exact Or.inr ⟨(hI.ready0 u hready).1, p, htr, hpf⟩

/-- Witness for C1: the concrete one-unit frame runs to its terminal state and
the body was invoked exactly once. -/
theorem workUnitAtMostOnce_witness :
    (tS3.units 0).invocations = 1 ∨
      ((tS3.units 0).invocations = 0 ∧
        ∃ p, TransPred tS3.deps p 0 ∧ (tS3.units p).state = UnitState.Failed) :=
  (workUnitAtMostOnce tReach).2.2 tTerminal (fun _ => 0)
    (fun _ p hp => absurd hp (List.not_mem_nil p))
    (fun _ _ p hp => absurd hp (List.not_mem_nil p))
    0 (by decide)

/-- C2: for every dependency edge from predecessor p to dependent v, in every
reachable frame state in which v has started, p finished strictly before v
started, and every body memory event of p carries a strictly smaller timestamp
than every body memory event of v: in the interleaving model the writes of the
predecessor happen before the reads of the dependent. -/
theorem dependencyRespect {fs0 fs : FrameState} (h : Reach (frameStart fs0) fs) :
    ∀ v s, (fs.units v).startTime = some s →
      ∀ p ∈ fs.deps v,
        ∃ f, (fs.units p).finishTime = some f ∧ f < s ∧
          (∀ e ∈ (fs.units p).bodyEvents, e < f) ∧
          (∀ e ∈ (fs.units p).bodyEvents, ∀ e2 ∈ (fs.units v).bodyEvents, e < e2) := by
  have hI := invReach h
  intro v s hvs p hp
  obtain ⟨f, hf, hfs⟩ := hI.startAfterPred v s hvs p hp
  have hbp := eventsBeforeFinish hI p f hf
  have hbv := eventsAfterStart hI v s hvs
  refine ⟨f, hf, hfs, hbp, ?_⟩
  intro e he e2 he2
  have h1 := hbp e he
  have h2 := hbv e2 he2
  omega

/-- Witness for C2 on the concrete trace: unit 0 finished at timestamp 3,
before its dependent unit 1 started at timestamp 5, and the write of unit 0
precedes the read of unit 1. -/
theorem dependencyRespect_witness :
    ∃ f, (exSF.units 0).finishTime = some f ∧ f < 5 ∧
      (∀ e ∈ (exSF.units 0).bodyEvents, e < f) ∧
      (∀ e ∈ (exSF.units 0).bodyEvents, ∀ e2 ∈ (exSF.units 1).bodyEvents, e < e2) :=
  dependencyRespect exReach 1 5 (by decide) 0 (by decide)

/-- C3: after update_dependency_cache the dispatch sequence is a permutation
of the registry sorted by the work-unit key: descending dependent-count first,
then descending performance sample, with the handle ascending as the final
tiebreak, so more-depended-on and longer-running units sort earlier. -/
theorem dispatchSorted (s : Scheduler) :
    ((update_dependency_cache s).frame.dispatch).Pairwise
        (fun a b => keyOrder (keyOf s.frame a) (keyOf s.frame b)) ∧
      ((update_dependency_cache s).frame.dispatch).Perm s.frame.registry := by
  constructor
  · have h := @List.sorted_mergeSort Handle
      (fun a b => keyLE (keyOf s.frame a) (keyOf s.frame b))
      (fun a b c hab hbc => keyLE_trans _ _ _ hab hbc)
      (fun a b => keyLE_total _ _)
      s.frame.registry
    exact h.imp (fun hab => of_decide_eq_true hab)
  · exact List.mergeSort_perm s.frame.registry _

/-- C4: whenever the sequence a thread scans contains a ready unit (state
still the ready sentinel, all predecessors Complete), the single pass finds
the first such unit after skipping strictly fewer entries than the registry
size, and the winning compare-and-swap step is enabled for any thread, so some
thread acquires and advances it; when no unit is ready the scan comes back
empty and the thread re-scans. -/
theorem progressScan (fs : FrameState) (seq : List Handle)
    (hsub : ∀ u ∈ seq, u ∈ fs.registry)
    (hlen : seq.length ≤ fs.registry.length) :
    ((∃ u ∈ seq, readyUnit fs u = true) →
      ∃ v, scanAcquire fs seq = some v ∧ v ∈ seq ∧ readyUnit fs v = true ∧
        (seq.takeWhile (fun u => ! readyUnit fs u)).length < fs.registry.length ∧
        ∀ t, Step fs (doAcquire fs t v)) ∧
    ((∀ u ∈ seq, readyUnit fs u = false) → scanAcquire fs seq = none) := by
  constructor
  · intro hex
    obtain ⟨v, hfind, hmem, hrv, hlt⟩ := scanFindsFirst fs seq hex
    obtain ⟨hstv, hdv⟩ := (readyUnit_iff fs v).mp hrv
    exact ⟨v, hfind, hmem, hrv, Nat.lt_of_lt_of_le hlt hlen,
      fun t => Step.acquire fs t v (hsub v hmem) hstv hdv⟩
  · exact scanEmpty fs seq

/-- Witness for C4: at the start of the example frame every unit without
predecessors is ready and the scan over the dispatch sequence finds one and
can acquire it. -/
theorem progressScan_witness :
    ∃ v, scanAcquire exS0 [0, 1, 2, 3] = some v ∧ v ∈ ([0, 1, 2, 3] : List Handle) ∧
      readyUnit exS0 v = true ∧
      (([0, 1, 2, 3] : List Handle).takeWhile (fun u => ! readyUnit exS0 u)).length <
        exS0.registry.length ∧
      ∀ t, Step exS0 (doAcquire exS0 t v) :=
  (progressScan exS0 [0, 1, 2, 3] (by decide) (by decide)).1 ⟨0, by decide, by decide⟩

/-- C5: at the end of every frame the scheduler sleeps for exactly
max (0, target - elapsed + carry), a nonnegative amount, and then stores as
carry the full residual (target - elapsed) - actually_slept clamped to the
configured bound; when the residual is within the bound no information is
lost, and when the sleep is exact and unclamped the realized frame duration
plus the new carry equals the target. -/
theorem pacingCarry (bound target elapsed carry slept : Int) :
    (frameEndPacing bound target elapsed carry slept).1 = max 0 (target - elapsed + carry) ∧
    0 ≤ (frameEndPacing bound target elapsed carry slept).1 ∧
    (frameEndPacing bound target elapsed carry slept).2 =
      clampCarry bound (target - elapsed - slept) ∧
    (0 ≤ bound → -bound ≤ (frameEndPacing bound target elapsed carry slept).2 ∧
      (frameEndPacing bound target elapsed carry slept).2 ≤ bound) ∧
    (-bound ≤ target - elapsed - slept → target - elapsed - slept ≤ bound →
      (frameEndPacing bound target elapsed carry slept).2 = (target - elapsed) - slept) ∧
    (slept = (frameEndPacing bound target elapsed carry slept).1 →
      0 ≤ target - elapsed + carry → -bound ≤ -carry → -carry ≤ bound →
      elapsed + slept + (frameEndPacing bound target elapsed carry slept).2 = target) := by
  refine ⟨rfl, le_max_left 0 _, rfl, ?_, ?_, ?_⟩
  · intro hb
    constructor
    · exact le_max_left _ _
    · exact max_le (by omega) (min_le_left bound _)
  · intro h1 h2
    show max (-bound) (min bound (target - elapsed - slept)) = target - elapsed - slept
    rw [min_eq_right h2, max_eq_right h1]
  · intro hs h0 hb1 hb2
    have hs2 : slept = target - elapsed + carry := by
      rw [hs]
      exact max_eq_right h0
    have hx : target - elapsed - slept = -carry := by omega
    show elapsed + slept + max (-bound) (min bound (target - elapsed - slept)) = target
    rw [hx, min_eq_right hb2, max_eq_right hb1]
    omega

/-- Witness for C5 at the numbers of spec scenario S5: a 16000 microsecond
target, 1000 microseconds of work, no prior carry and an exact sleep land the
frame exactly on target. -/
theorem pacingCarry_witness :
    (1000 : Int) + 15000 + (frameEndPacing 1000 16000 1000 0 15000).2 = 16000 :=
  (pacingCarry 1000 16000 1000 0 15000).2.2.2.2.2 (by decide) (by decide) (by decide) (by decide)

/-- C6: a unit that Failed stays Failed for the rest of the frame and no step
touches it again; every transitive dependent of a failed unit still holds the
ready sentinel and was never invoked this frame; in a terminal state every
registered unit with no failed transitive predecessor finished, so the frame
completes around the failure; and at the next frame start every unit is back
to the ready sentinel with a fresh invocation count, to be attempted from
scratch. -/
theorem failureIsolation {fs0 fs : FrameState} (h : Reach (frameStart fs0) fs) :
    (∀ fs2, Step fs fs2 → ∀ u, (fs.units u).state = UnitState.Failed →
      fs2.units u = fs.units u) ∧
    (∀ p u, TransPred fs.deps p u → (fs.units p).state = UnitState.Failed →
      (fs.units u).state = UnitState.Ready ∧ (fs.units u).invocations = 0) ∧
    (Terminal fs →
      ∀ rank : Handle → Nat, (∀ u, ∀ p ∈ fs.deps u, rank p < rank u) →
        (∀ u ∈ fs.registry, ∀ p ∈ fs.deps u, p ∈ fs.registry) →
        ∀ u ∈ fs.registry,
          (∀ p, TransPred fs.deps p u → (fs.units p).state ≠ UnitState.Failed) →
          ((fs.units u).state = UnitState.Complete ∨
            (fs.units u).state = UnitState.Failed)) ∧
    (∀ u, ((frameStart fs).units u).state = UnitState.Ready ∧
      ((frameStart fs).units u).invocations = 0) := by
  have hI := invReach h
  refine ⟨?_, ?_, ?_, ?_⟩
  · intro fs2 hstep u hu
    exact step_frozen hstep u (Or.inr hu)
  · intro p u htr hpf
    have hR := failedAncestorReady hI p u htr hpf
    exact ⟨hR, (hI.ready0 u hR).1⟩
  · intro hT rank hrank hclosed u hu hnf
    rcases terminalClassify hI hT rank hrank hclosed u hu with hdone | ⟨_, p, htr, hpf⟩
    · exact hdone
    · exact absurd hpf (hnf p htr)
  · intro u
    exact ⟨rfl, rfl⟩

/-- Witness for C6 on the concrete trace: unit 2 failed, so its dependent
unit 3 still holds the ready sentinel and was never invoked. -/
theorem failureIsolation_witness :
    (exSF.units 3).state = UnitState.Ready ∧ (exSF.units 3).invocations = 0 :=
  (failureIsolation exReach).2.1 2 3 (TransPred.base (by decide)) (by decide)

/-- C7: while a frame is in flight no in-frame execution changes the registry,
the dependency lists or the dispatch sequence, and the structural operations
add_work_unit, add_dependency and remove_work_unit refuse while a frame is in
flight and succeed between frames. -/
theorem graphImmutableDuringFrame :
    (∀ fs fs2 : FrameState, Reach fs fs2 →
      fs2.registry = fs.registry ∧ fs2.deps = fs.deps ∧ fs2.dispatch = fs.dispatch) ∧
    (∀ s : Scheduler, s.inFlight = true →
      (∀ u, add_work_unit s u = none) ∧
      (∀ d p, add_dependency s d p = none) ∧
      (∀ u, remove_work_unit s u = none)) ∧
    (∀ s : Scheduler, s.inFlight = false →
      (∀ u, ∃ s2, add_work_unit s u = some s2) ∧
      (∀ d p, ∃ s2, add_dependency s d p = some s2) ∧
      (∀ u, ∃ s2, remove_work_unit s u = some s2)) := by
  refine ⟨fun fs fs2 h => reachStructure h, ?_, ?_⟩
  · intro s hs
    exact ⟨fun u => by simp [add_work_unit, hs],
      fun d p => by simp [add_dependency, hs],
      fun u => by simp [remove_work_unit, hs]⟩
  · intro s hs
    exact ⟨fun u => by simp [add_work_unit, hs],
      fun d p => by simp [add_dependency, hs],
      fun u => by simp [remove_work_unit, hs]⟩

/-- Witness for C7: with a frame in flight the structural operation refuses,
and between frames it succeeds. -/
theorem graphImmutableDuringFrame_witness :
    add_work_unit exSchedBusy 9 = none ∧ ∃ s2, add_work_unit exSchedIdle 9 = some s2 :=
  ⟨(graphImmutableDuringFrame.2.1 exSchedBusy rfl).1 9,
   (graphImmutableDuringFrame.2.2 exSchedIdle rfl).1 9⟩

/-- C8: for a double-buffered resource, any number of in-frame writes by the
owning thread into its current slot leave previous (and the parity) untouched,
so writes of frame k are never visible through previous during frame k; the
frame-start flip toggles the parity exactly once, after which previous returns
exactly what current held — in particular the last value written in frame k is
visible through previous in frame k+1. -/
theorem doubleBufferVisibility {α : Type} (d : DoubleBuffered α) (ws : List α) (x : α) :
    previous (List.foldl writeCurrent d ws) = previous d ∧
    (List.foldl writeCurrent d ws).parity = d.parity ∧
    (flip d).parity = !d.parity ∧
    previous (flip (List.foldl writeCurrent d ws)) = current (List.foldl writeCurrent d ws) ∧
    current (List.foldl writeCurrent d (ws ++ [x])) = x := by
  refine ⟨previous_foldl_writeCurrent ws d, parity_foldl_writeCurrent ws d, rfl,
    previous_flip _, ?_⟩
  rw [List.foldl_append]
  exact current_writeCurrent _ x

/-- C9: constructing a lock_guard on a mutex performs exactly one lock of that
mutex and nothing else, destroying it performs exactly one unlock of the same
mutex and nothing else, so each construct and destruct pair is the balanced
round-trip lock then unlock. -/
theorem lockGuardBalanced (m : Nat) :
    (lockGuardConstruct m).2 = [MutexOp.lock m] ∧
    lockGuardDestruct (lockGuardConstruct m).1 = [MutexOp.unlock m] ∧
    (lockGuardConstruct m).2 ++ lockGuardDestruct (lockGuardConstruct m).1 =
      [MutexOp.lock m, MutexOp.unlock m] :=
  ⟨rfl, rfl, rfl⟩

/-- C10: the constructor stores the address of the mutex reference, so the
mMutex pointer of a constructed lock_guard is non-null, the null-check branch
of the destructor that skips the unlock is unreachable for it, and the unlock
is always performed at destruction. -/
theorem lockGuardNeverNull (m : Nat) :
    (lockGuardConstruct m).1.mMutex = some m ∧
    (∀ g : lock_guard, g.mMutex = some m → lockGuardDestruct g = [MutexOp.unlock m]) ∧
    lockGuardDestruct (lockGuardConstruct m).1 ≠ [] := by
  refine ⟨rfl, ?_, by simp [lockGuardConstruct, lockGuardDestruct]⟩
  intro g hg
  simp [lockGuardDestruct, hg]

/-- Witness for C10: a guard holding mutex 0 unlocks it at destruction. -/
theorem lockGuardNeverNull_witness :
    lockGuardDestruct { mMutex := some 0 } = [MutexOp.unlock 0] :=
  (lockGuardNeverNull 0).2.1 { mMutex := some 0 } rfl

end DAGFS
